import Mathlib

/-!
Shallow embedding of `src/NhDBN/utils.py`: the feature-set move operators
(`deleteMove`, `addMove`, `exchangeMove`), the data-model helpers
(`selectData`, `constructMuMatrix`, `constructDesignMatrix`) and the
initial feature-set generator (`generateInitialFeatureSet`).

Modelling conventions:
* numpy 1-D integer arrays become `List Nat`; feature-value vectors become
  `List ℚ` (the claims under study are shape-only, so rationals stand in
  for floats).
* A call to `np.random.choice(arr)` is modelled by an explicit draw
  parameter `draw : Nat`: the chosen element is the one at position
  `draw % arr.length`, and choosing from an empty array is the error
  `MoveError.emptySample` (numpy raises `ValueError: a must be non-empty`).
* `raise ValueError(msg)` in a move precondition becomes
  `MoveError.constraintViolation msg`; fallible functions return `Except`.
-/

namespace NhDBN

/-- Feature-value vectors (numpy float arrays, modelled over ℚ). -/
abbrev FVec := List ℚ

/-- The `data` dictionaries of `utils.py`: a `features` map and a
`response` map, both keyed by strings, modelled as association lists in
insertion order (Python dicts preserve insertion order). -/
structure Dataset where
  features : List (String × FVec)
  response : List (String × FVec)
deriving DecidableEq, Repr

/-- Errors raised by the move operators: a precondition `ValueError`
carrying its message, or the numpy error for sampling from an empty array. -/
inductive MoveError where
  | constraintViolation (msg : String)
  | emptySample
deriving DecidableEq, Repr

/-- Errors raised by dictionary lookup (`KeyError` in Python). -/
inductive KeyError where
  | keyNotFound (key : String)
deriving DecidableEq, Repr

deriving instance DecidableEq for Except

/-- `np.random.choice(arr)` for a 1-D array: uniform choice of one element,
modelled by an explicit draw index; empty input raises. -/
def npChoice (arr : List Nat) (draw : Nat) : Except MoveError Nat :=
  if arr = [] then .error .emptySample
  else .ok (arr.getD (draw % arr.length) 0)

/-- `np.setdiff1d(a, b)`: the sorted unique values of `a` that are not in
`b` (the sorting algorithm itself is irrelevant to the semantics). -/
def setdiff1d (a b : List Nat) : List Nat :=
  ((a.insertionSort (· ≤ ·)).dedup).filter (fun x => decide (x ∉ b))

/-- `np.add(np.arange(numFeatures), 1)`: the array `[1, ..., numFeatures]`
of all feature ids. -/
def allFeaturesList (numFeatures : Nat) : List Nat :=
  (List.range numFeatures).map (· + 1)

/-- `deleteMove(featureSet, numFeatures, fanInRestriction)` from
`utils.py`: raise when `len(featureSet) < 2`; otherwise draw `elToDel`
from the set and return `np.setdiff1d(featureSet, elToDel)`. -/
def deleteMove (featureSet : List Nat) (numFeatures fanInRestriction : Nat)
    (draw : Nat) : Except MoveError (List Nat) :=
  if featureSet.length < 2 then
    .error (.constraintViolation
      "You cannot delete an element when the card(Pi) is <2.")
  else
    match npChoice featureSet draw with
    | .error e => .error e
    | .ok elToDel => .ok (setdiff1d featureSet [elToDel])

/-- `addMove(featureSet, numFeatures, fanInRestriction)` from `utils.py`:
raise when `len(featureSet) > fanInRestriction - 1` (Python integer
arithmetic, hence the comparison over ℤ); otherwise draw `featureToAdd`
from `np.setdiff1d(allFeatures, featureSet)` and append it. -/
def addMove (featureSet : List Nat) (numFeatures fanInRestriction : Nat)
    (draw : Nat) : Except MoveError (List Nat) :=
  if (featureSet.length : Int) > (fanInRestriction : Int) - 1 then
    .error (.constraintViolation
      "The cardinality of the feature set cannot be more than the fan-in restriction.")
  else
    let allFeatures := allFeaturesList numFeatures
    let candidateFeatureSet := setdiff1d allFeatures featureSet
    match npChoice candidateFeatureSet draw with
    | .error e => .error e
    | .ok featureToAdd => .ok (featureSet ++ [featureToAdd])

/-- `exchangeMove(featureSet, numFeatures, fanInRestriction)` from
`utils.py`: raise when `len(featureSet) < 1`; otherwise draw
`elToExchange` from the set, remove it both from `allFeatures` and from
the set, draw `elToAdd` from the reduced `allFeatures`, and append it to
the reduced set. -/
def exchangeMove (featureSet : List Nat) (numFeatures fanInRestriction : Nat)
    (draw1 draw2 : Nat) : Except MoveError (List Nat) :=
  if featureSet.length < 1 then
    .error (.constraintViolation
      "You must have at least one element on the feature set to be able to exchange it.")
  else
    let allFeatures := allFeaturesList numFeatures
    match npChoice featureSet draw1 with
    | .error e => .error e
    | .ok elToExchange =>
      let allFeaturesNoExchange := setdiff1d allFeatures [elToExchange]
      let featureSetLess := setdiff1d featureSet [elToExchange]
      match npChoice allFeaturesNoExchange draw2 with
      | .error e => .error e
      | .ok elToAdd => .ok (featureSetLess ++ [elToAdd])

/-- `constructMuMatrix(featureSet)` from `utils.py`:
`np.zeros(len(featureSet) + 1).reshape(len(featureSet) + 1, 1)`, i.e. a
column vector of `|featureSet| + 1` zeros. -/
def constructMuMatrix (featureSet : List Nat) : List (List ℚ) :=
  List.replicate (featureSet.length + 1) [(0 : ℚ)]

/-- numpy transpose `.T` of a rectangular 2-D array given as a list of
rows: entry `(i, j)` of the result is entry `(j, i)` of the argument. The
column count of a rectangular array is the length of its first row. -/
def npTranspose (rows : List (List ℚ)) : List (List ℚ) :=
  (List.range (rows.headD []).length).map
    (fun i => rows.map (fun r => r.getD i 0))

/-- `constructDesignMatrix(data, num_samples)` from `utils.py`: start from
a row of `num_samples` ones, `np.vstack` each feature vector below it in
insertion order, and return the transpose. When there are no features the
code reshapes the transposed ones vector to `(num_samples, 1)`, which in
the list-of-rows model is already the transpose of the single-row matrix,
so both branches coincide. -/
def constructDesignMatrix (data : Dataset) (numSamples : Nat) :
    List (List ℚ) :=
  let onesVector := List.replicate numSamples (1 : ℚ)
  let designMatrix := onesVector :: data.features.map (fun p => p.2)
  if data.features.length < 1 then npTranspose designMatrix
  else npTranspose designMatrix

/-- `np.random.choice(pool, k, replace=False)` drawn one element at a
time: each step removes the drawn element from the pool; an exhausted pool
(more draws requested than population) raises, as numpy does when
`k > len(pool)` with `replace=False`. The randomness is an explicit stream
of draw indices. -/
def npChoiceNoReplace : Nat → List Nat → List Nat → Except MoveError (List Nat)
  | 0, _, _ => .ok []
  | k + 1, pool, seed =>
    if pool = [] then .error .emptySample
    else
      let x := pool.getD (seed.headD 0 % pool.length) 0
      match npChoiceNoReplace k (pool.erase x) seed.tail with
      | .error e => .error e
      | .ok rest => .ok (x :: rest)

/-- `generateInitialFeatureSet(numFeatures, fanInRestriction)` from
`utils.py`: sample `fanInRestriction` distinct indices from
`np.arange(numFeatures)` without replacement, then shift by `+1`. -/
def generateInitialFeatureSet (numFeatures fanInRestriction : Nat)
    (seed : List Nat) : Except MoveError (List Nat) :=
  match npChoiceNoReplace fanInRestriction (List.range numFeatures) seed with
  | .error e => .error e
  | .ok randomIdx => .ok (randomIdx.map (· + 1))

/-- The key "X" + str(int(feature)) used by `selectData`. -/
def xKey (i : Nat) : String := "X" ++ toString i

/-- Python dict lookup `m[k]` on an association list. -/
def lookupKey (m : List (String × FVec)) (k : String) : Option FVec :=
  (m.find? (fun p => p.1 == k)).map (fun p => p.2)

/-- The loop of `selectData`: for each feature id, look up the key
"X" + i in the features map (raising `KeyError` when absent, as Python
does) and record the binding. -/
def selectFeaturesGo (data : Dataset) : List Nat → Except KeyError (List (String × FVec))
  | [] => .ok []
  | i :: rest =>
    match lookupKey data.features (xKey i) with
    | none => .error (.keyNotFound (xKey i))
    | some v =>
      match selectFeaturesGo data rest with
      | .error e => .error e
      | .ok tail => .ok ((xKey i, v) :: tail)

/-- `selectData(data, featureSet)` from `utils.py`: build `partialData`
with the selected feature columns and an empty `response` map. -/
def selectData (data : Dataset) (featureSet : List Nat) :
    Except KeyError Dataset :=
  match selectFeaturesGo data featureSet with
  | .error e => .error e
  | .ok fs => .ok ⟨fs, []⟩

/-! ## Basic facts about the numpy primitives -/

theorem mem_setdiff1d {a b : List Nat} {x : Nat} :
    x ∈ setdiff1d a b ↔ x ∈ a ∧ x ∉ b := by
  rw [setdiff1d, List.mem_filter, List.mem_dedup,
    (List.perm_insertionSort (· ≤ ·) a).mem_iff]
  simp

theorem nodup_setdiff1d (a b : List Nat) : (setdiff1d a b).Nodup :=
  List.Nodup.filter _ (List.nodup_dedup _)

theorem setdiff1d_perm_filter (a b : List Nat) (ha : a.Nodup) :
    (setdiff1d a b).Perm (a.filter fun x => decide (x ∉ b)) := by
  have hperm : (a.insertionSort (· ≤ ·)).Perm a :=
    List.perm_insertionSort (· ≤ ·) a
  have hnd : (a.insertionSort (· ≤ ·)).Nodup := hperm.symm.nodup ha
  rw [setdiff1d, List.Nodup.dedup hnd]
  exact List.Perm.filter _ hperm

theorem length_setdiff1d_of_mem {a : List Nat} {e : Nat}
    (ha : a.Nodup) (he : e ∈ a) :
    (setdiff1d a [e]).length = a.length - 1 := by
  rw [(setdiff1d_perm_filter a [e] ha).length_eq]
  have h1 : (a.filter fun x => decide (x ∉ [e])) = a.filter fun x => x != e :=
    List.filter_congr fun x _ => by by_cases h : x = e <;> simp [h]
  rw [h1, ← List.Nodup.erase_eq_filter ha e, List.length_erase_of_mem he]

theorem setdiff1d_eq_nil {a b : List Nat} (h : ∀ x ∈ a, x ∈ b) :
    setdiff1d a b = [] := by
  rw [List.eq_nil_iff_forall_not_mem]
  intro x hx
  rcases mem_setdiff1d.mp hx with ⟨hxa, hxb⟩
  exact hxb (h x hxa)

theorem npChoice_ok {arr : List Nat} (h : arr ≠ []) (draw : Nat) :
    npChoice arr draw = .ok (arr.getD (draw % arr.length) 0) := by
  simp [npChoice, h]

theorem npChoice_empty (draw : Nat) : npChoice [] draw = .error .emptySample :=
  rfl

theorem getD_mod_mem {arr : List Nat} (h : arr ≠ []) (draw : Nat) :
    arr.getD (draw % arr.length) 0 ∈ arr := by
  have hl : 0 < arr.length := List.length_pos.mpr h
  have hi : draw % arr.length < arr.length := Nat.mod_lt _ hl
  rw [List.getD_eq_getElem _ _ hi]
  exact List.getElem_mem hi

theorem mem_allFeaturesList {n x : Nat} :
    x ∈ allFeaturesList n ↔ 1 ≤ x ∧ x ≤ n := by
  simp only [allFeaturesList, List.mem_map, List.mem_range]
  constructor
  · rintro ⟨i, hi, rfl⟩
    omega
  · intro h
    exact ⟨x - 1, by omega, by omega⟩

theorem nodup_allFeaturesList (n : Nat) : (allFeaturesList n).Nodup :=
  List.Nodup.map (fun a b h => by omega) (List.nodup_range n)

theorem length_allFeaturesList (n : Nat) : (allFeaturesList n).length = n := by
  simp [allFeaturesList]

theorem npChoice_error {arr : List Nat} {s : Nat} {e : MoveError}
    (h : npChoice arr s = .error e) : e = .emptySample := by
  by_cases ha : arr = []
  · rw [ha, npChoice_empty] at h
    injection h with h
    exact h.symm
  · rw [npChoice_ok ha] at h
    exact absurd h (by simp)

theorem setdiff1d_allFeatures_ne_nil {n : Nat} {fs : List Nat}
    (hlt : fs.length < n) : setdiff1d (allFeaturesList n) fs ≠ [] := by
  intro hnil
  have hsub : ∀ x ∈ allFeaturesList n, x ∈ fs := by
    intro x hx
    by_contra hxfs
    have hx2 : x ∈ setdiff1d (allFeaturesList n) fs :=
      mem_setdiff1d.mpr ⟨hx, hxfs⟩
    rw [hnil] at hx2
    exact List.not_mem_nil x hx2
  have hle := (List.subperm_of_subset (nodup_allFeaturesList n) hsub).length_le
  rw [length_allFeaturesList] at hle
  omega

theorem exchangeMove_eq_of_ne_nil {fs : List Nat} (n f s s2 : Nat)
    (hne : fs ≠ []) :
    exchangeMove fs n f s s2 =
      match npChoice
          (setdiff1d (allFeaturesList n) [fs.getD (s % fs.length) 0]) s2 with
      | .error e => .error e
      | .ok a => .ok (setdiff1d fs [fs.getD (s % fs.length) 0] ++ [a]) := by
  have hlen : ¬ fs.length < 1 := by
    have := List.length_pos.mpr hne
    omega
  simp only [exchangeMove]
  rw [if_neg hlen, npChoice_ok hne]

/-! ## The claims -/

/-- Claim C4: for every feature set of distinct ids with
`2 ≤ |Π| ≤ fanInRestriction` and every random draw, `deleteMove` succeeds
and returns a set with `|Π| - 1` elements that is a strict subset of Π:
exactly the drawn element is removed. -/
theorem C4_deleteMove_strict_subset (fs : List Nat) (n f s : Nat)
    (hnd : fs.Nodup) (h2 : 2 ≤ fs.length) (hf : fs.length ≤ f) :
    ∃ r, deleteMove fs n f s = .ok r ∧
      r.length = fs.length - 1 ∧
      (∀ x ∈ r, x ∈ fs) ∧
      ∃ e ∈ fs, e ∉ r ∧ ∀ x ∈ fs, x ≠ e → x ∈ r := by
  have hne : fs ≠ [] := by
    intro h
    rw [h] at h2
    simp at h2
  have hememb := getD_mod_mem hne s
  refine ⟨setdiff1d fs [fs.getD (s % fs.length) 0], ?_, ?_, ?_, ?_⟩
  · simp only [deleteMove]
    rw [if_neg (by omega), npChoice_ok hne]
  · exact length_setdiff1d_of_mem hnd hememb
  · intro x hx
    exact (mem_setdiff1d.mp hx).1
  · refine ⟨fs.getD (s % fs.length) 0, hememb, ?_, ?_⟩
    · intro hmem2
      have h3 := (mem_setdiff1d.mp hmem2).2
      simp at h3
    · intro x hx hxe
      refine mem_setdiff1d.mpr ⟨hx, ?_⟩
      rw [List.mem_singleton]
      exact hxe

/-- Witness for C4 at the concrete input `Π = {1, 2}`, draw 0. -/
theorem C4_deleteMove_strict_subset_witness :
    ∃ r, deleteMove [1, 2] 3 3 0 = .ok r ∧
      r.length = ([1, 2] : List Nat).length - 1 ∧
      (∀ x ∈ r, x ∈ ([1, 2] : List Nat)) ∧
      ∃ e ∈ ([1, 2] : List Nat), e ∉ r ∧
        ∀ x ∈ ([1, 2] : List Nat), x ≠ e → x ∈ r :=
  C4_deleteMove_strict_subset [1, 2] 3 3 0 (by decide) (by decide) (by decide)

/-- Claim C3: for every feature set of distinct ids in `[1, numFeatures]`
with `|Π| ≤ fanInRestriction - 1` and `numFeatures > |Π|`, and every draw,
`addMove` returns a set with `|Π| + 1` elements that is a strict superset
of Π; the one added element lies in `[1, numFeatures] \ Π`. -/
theorem C3_addMove_strict_superset (fs : List Nat) (n f s : Nat)
    (hnd : fs.Nodup) (hmem : ∀ x ∈ fs, 1 ≤ x ∧ x ≤ n)
    (hroom : (fs.length : Int) ≤ (f : Int) - 1) (hn : fs.length < n) :
    ∃ a, addMove fs n f s = .ok (fs ++ [a]) ∧
      (fs ++ [a]).length = fs.length + 1 ∧
      (∀ x ∈ fs, x ∈ fs ++ [a]) ∧
      1 ≤ a ∧ a ≤ n ∧ a ∉ fs := by
  have hC : setdiff1d (allFeaturesList n) fs ≠ [] :=
    setdiff1d_allFeatures_ne_nil hn
  have hamem : (setdiff1d (allFeaturesList n) fs).getD
      (s % (setdiff1d (allFeaturesList n) fs).length) 0
      ∈ setdiff1d (allFeaturesList n) fs := getD_mod_mem hC s
  rcases mem_setdiff1d.mp hamem with ⟨haall, hafs⟩
  rcases mem_allFeaturesList.mp haall with ⟨h1a, h2a⟩
  refine ⟨_, ?_, by simp, fun x hx => List.mem_append_left _ hx, h1a, h2a, hafs⟩
  simp only [addMove]
  rw [if_neg (not_lt.mpr hroom), npChoice_ok hC]

/-- Witness for C3 at the concrete input `Π = {2}`, `numFeatures = 3`,
`fanInRestriction = 3`, draw 0. -/
theorem C3_addMove_strict_superset_witness :
    ∃ a, addMove [2] 3 3 0 = .ok ([2] ++ [a]) ∧
      (([2] : List Nat) ++ [a]).length = ([2] : List Nat).length + 1 ∧
      (∀ x ∈ ([2] : List Nat), x ∈ [2] ++ [a]) ∧
      1 ≤ a ∧ a ≤ 3 ∧ a ∉ ([2] : List Nat) :=
  C3_addMove_strict_superset [2] 3 3 0 (by decide) (by decide) (by decide)
    (by decide)

/-- Claim C10: when the precondition `|Π| ≤ fanInRestriction - 1` holds but
Π already contains every id of `[1, numFeatures]`, the candidate pool is
empty and `addMove` raises the empty-sampling error instead of returning;
and whenever `addMove` does return, the added element lies in
`[1, numFeatures]`. -/
theorem C10_addMove_empty_pool (fs : List Nat) (n f s : Nat) :
    ((∀ x, x ≤ n → 1 ≤ x → x ∈ fs) →
      (fs.length : Int) ≤ (f : Int) - 1 →
      addMove fs n f s = .error .emptySample) ∧
    (∀ r, addMove fs n f s = .ok r → ∃ a, r = fs ++ [a] ∧ 1 ≤ a ∧ a ≤ n) := by
  constructor
  · intro hcover hroom
    have hnil : setdiff1d (allFeaturesList n) fs = [] := by
      apply setdiff1d_eq_nil
      intro x hx
      rcases mem_allFeaturesList.mp hx with ⟨h1, h2⟩
      exact hcover x h2 h1
    simp only [addMove]
    rw [if_neg (not_lt.mpr hroom), hnil, npChoice_empty]
  · intro r hr
    simp only [addMove] at hr
    by_cases hcond : (fs.length : Int) > (f : Int) - 1
    · rw [if_pos hcond] at hr
      exact absurd hr (by simp)
    · rw [if_neg hcond] at hr
      by_cases hC : setdiff1d (allFeaturesList n) fs = []
      · rw [hC, npChoice_empty] at hr
        exact absurd hr (by simp)
      · rw [npChoice_ok hC] at hr
        have hamem : (setdiff1d (allFeaturesList n) fs).getD
            (s % (setdiff1d (allFeaturesList n) fs).length) 0
            ∈ setdiff1d (allFeaturesList n) fs := getD_mod_mem hC s
        rcases mem_setdiff1d.mp hamem with ⟨haall, -⟩
        rcases mem_allFeaturesList.mp haall with ⟨h1a, h2a⟩
        refine ⟨_, ?_, h1a, h2a⟩
        injection hr with hr
        exact hr.symm

/-- Witness for C10 at the concrete input `Π = {1, 2}`, `numFeatures = 2`,
`fanInRestriction = 5`: the pool is empty and sampling it raises. -/
theorem C10_addMove_empty_pool_witness :
    addMove [1, 2] 2 5 0 = .error .emptySample :=
  (C10_addMove_empty_pool [1, 2] 2 5 0).1 (by decide) (by decide)

/-- Claim C5: each move raises a constraint-violation error, never a
silently corrected result, exactly at its precondition boundary:
`deleteMove` when `|featureSet| < 2` (message: cardinality cannot go below
2), `addMove` when `|featureSet| > fanInRestriction - 1` (message
referencing the fan-in bound), and `exchangeMove` when the set is empty. -/
theorem C5_precondition_boundaries (fs : List Nat) (n f s s2 : Nat) :
    ((∃ m, deleteMove fs n f s = .error (.constraintViolation m)) ↔
      fs.length < 2) ∧
    (fs.length < 2 → deleteMove fs n f s = .error (.constraintViolation
      "You cannot delete an element when the card(Pi) is <2.")) ∧
    ((∃ m, addMove fs n f s = .error (.constraintViolation m)) ↔
      (fs.length : Int) > (f : Int) - 1) ∧
    ((fs.length : Int) > (f : Int) - 1 →
      addMove fs n f s = .error (.constraintViolation
        "The cardinality of the feature set cannot be more than the fan-in restriction.")) ∧
    ((∃ m, exchangeMove fs n f s s2 = .error (.constraintViolation m)) ↔
      fs.length < 1) ∧
    (fs.length < 1 → exchangeMove fs n f s s2 = .error (.constraintViolation
      "You must have at least one element on the feature set to be able to exchange it.")) := by
  refine ⟨?_, ?_, ?_, ?_, ?_, ?_⟩
  · constructor
    · rintro ⟨m, hm⟩
      by_contra hlen
      have hne : fs ≠ [] := by
        intro h
        rw [h] at hlen
        simp at hlen
      simp only [deleteMove] at hm
      rw [if_neg hlen, npChoice_ok hne] at hm
      exact absurd hm (by simp)
    · intro hlen
      exact ⟨_, by simp only [deleteMove]; rw [if_pos hlen]⟩
  · intro hlen
    simp only [deleteMove]
    rw [if_pos hlen]
  · constructor
    · rintro ⟨m, hm⟩
      by_contra hcond
      simp only [addMove] at hm
      rw [if_neg hcond] at hm
      by_cases hC : setdiff1d (allFeaturesList n) fs = []
      · rw [hC, npChoice_empty] at hm
        injection hm with hm
        exact absurd hm.symm (by simp)
      · rw [npChoice_ok hC] at hm
        exact absurd hm (by simp)
    · intro hcond
      exact ⟨_, by simp only [addMove]; rw [if_pos hcond]⟩
  · intro hcond
    simp only [addMove]
    rw [if_pos hcond]
  · constructor
    · rintro ⟨m, hm⟩
      by_contra hlen
      have hne : fs ≠ [] := by
        intro h
        rw [h] at hlen
        simp at hlen
      rw [exchangeMove_eq_of_ne_nil n f s s2 hne] at hm
      by_cases hC : setdiff1d (allFeaturesList n)
          [fs.getD (s % fs.length) 0] = []
      · rw [hC, npChoice_empty] at hm
        injection hm with hm
        exact absurd hm.symm (by simp)
      · rw [npChoice_ok hC] at hm
        exact absurd hm (by simp)
    · intro hlen
      exact ⟨_, by simp only [exchangeMove]; rw [if_pos hlen]⟩
  · intro hlen
    simp only [exchangeMove]
    rw [if_pos hlen]

/-- Instantiation of C5 at concrete boundary inputs: the empty set for
delete and exchange, and a two-element set at fan-in 2 for add. -/
theorem C5_precondition_boundaries_witness :
    deleteMove [] 3 3 0 = .error (.constraintViolation
      "You cannot delete an element when the card(Pi) is <2.") ∧
    addMove [1, 2] 3 2 0 = .error (.constraintViolation
      "The cardinality of the feature set cannot be more than the fan-in restriction.") ∧
    exchangeMove [] 3 3 0 0 = .error (.constraintViolation
      "You must have at least one element on the feature set to be able to exchange it.") :=
  ⟨(C5_precondition_boundaries [] 3 3 0 0).2.1 (by decide),
   (C5_precondition_boundaries [1, 2] 3 2 0 0).2.2.2.1 (by decide),
   (C5_precondition_boundaries [] 3 3 0 0).2.2.2.2.2 (by decide)⟩

/-- Claim C1, amended: the complement pool
`np.setdiff1d(allFeatures, elToExchange)` excludes exactly the element
just removed, and that element is also removed from the working set, so
`exchangeMove` never returns a set containing the element it just removed
(it may still select another element already present in the set). -/
theorem C1_exchangeMove_never_readds_removed (fs : List Nat)
    (n f s1 s2 : Nat) (r : List Nat)
    (h : exchangeMove fs n f s1 s2 = .ok r) :
    fs.getD (s1 % fs.length) 0 ∉ r := by
  have hne : fs ≠ [] := by
    intro hnil
    rw [hnil] at h
    simp [exchangeMove] at h
  rw [exchangeMove_eq_of_ne_nil n f s1 s2 hne] at h
  by_cases hC : setdiff1d (allFeaturesList n) [fs.getD (s1 % fs.length) 0] = []
  · rw [hC, npChoice_empty] at h
    exact absurd h (by simp)
  · rw [npChoice_ok hC] at h
    injection h with h
    rw [← h]
    intro hmem
    rcases List.mem_append.mp hmem with h1 | h1
    · have h2 := (mem_setdiff1d.mp h1).2
      simp at h2
    · rw [List.mem_singleton] at h1
      have hadd := getD_mod_mem hC s2
      have h2 := (mem_setdiff1d.mp hadd).2
      exact h2 (List.mem_singleton.mpr h1.symm)

/-- Exhaustive check refuting C1 as stated at the concrete input
`Π = {1, 2}`, `numFeatures = 5`: for every pair of draw behaviours
(`s1 mod 2`, `s2 mod 4` enumerate them all), the returned set omits the
element the move just removed. -/
theorem C1_counterexample_no_reselect :
    ((List.range 2).all fun s1 => (List.range 4).all fun s2 =>
      match exchangeMove [1, 2] 5 3 s1 s2 with
      | .ok r => decide (([1, 2] : List Nat).getD (s1 % 2) 0 ∉ r)
      | .error _ => false) = true := by decide

/-- Witness for the amended C1 at `Π = {1, 2}`, `numFeatures = 5`,
draws `(0, 0)`: the move removes 1, returns `[2, 2]`, and 1 is not in it. -/
theorem C1_exchangeMove_never_readds_removed_witness :
    ([1, 2] : List Nat).getD (0 % ([1, 2] : List Nat).length) 0 ∉
      ([2, 2] : List Nat) :=
  C1_exchangeMove_never_readds_removed [1, 2] 5 3 0 0 [2, 2] (by decide)

/-- Claim C2, amended: for every feature set of distinct ids in
`[1, numFeatures]` with `|Π| ≥ 1` and `numFeatures ≥ 2`, `exchangeMove`
succeeds for every pair of draws and returns an array with exactly `|Π|`
elements, including when the element drawn to add already belongs to the
remaining set (the array then holds a duplicate); when `numFeatures = 1`
the complement pool is empty and `exchangeMove` raises instead. -/
theorem C2_exchangeMove_preserves_length (fs : List Nat) (n f s1 s2 : Nat)
    (hnd : fs.Nodup) (hmem : ∀ x ∈ fs, 1 ≤ x ∧ x ≤ n)
    (h1 : 1 ≤ fs.length) (h2 : 2 ≤ n) :
    ∃ r, exchangeMove fs n f s1 s2 = .ok r ∧ r.length = fs.length := by
  have hne : fs ≠ [] := by
    intro h
    rw [h] at h1
    simp at h1
  have he : fs.getD (s1 % fs.length) 0 ∈ fs := getD_mod_mem hne s1
  rcases hmem _ he with ⟨he1, he2⟩
  have heall : fs.getD (s1 % fs.length) 0 ∈ allFeaturesList n :=
    mem_allFeaturesList.mpr ⟨he1, he2⟩
  have hlenpool : (setdiff1d (allFeaturesList n)
      [fs.getD (s1 % fs.length) 0]).length = n - 1 := by
    rw [length_setdiff1d_of_mem (nodup_allFeaturesList n) heall,
      length_allFeaturesList]
  have hpoolne : setdiff1d (allFeaturesList n)
      [fs.getD (s1 % fs.length) 0] ≠ [] := by
    intro hnil
    rw [hnil] at hlenpool
    simp at hlenpool
    omega
  rw [exchangeMove_eq_of_ne_nil n f s1 s2 hne, npChoice_ok hpoolne]
  refine ⟨_, rfl, ?_⟩
  simp only [List.length_append, List.length_singleton]
  rw [length_setdiff1d_of_mem hnd he]
  omega

/-- C2 as stated is false at the concrete input `Π = {1}`,
`numFeatures = 1`: the complement pool `[1, 1] \ set(1)` is empty and the
second draw raises the numpy empty-sample error, so the move does not
succeed for every valid Π with `|Π| ≥ 1`. -/
theorem C2_counterexample_single_feature :
    exchangeMove [1] 1 3 0 0 = .error .emptySample := by decide

/-- Witness for the amended C2 at `Π = {1, 2}`, `numFeatures = 2`, draws
`(0, 0)`: the move succeeds with `[2, 2]`, an array of `|Π| = 2` elements
whose added element equals the remaining element. -/
theorem C2_exchangeMove_preserves_length_witness :
    ∃ r, exchangeMove [1, 2] 2 3 0 0 = .ok r ∧
      r.length = ([1, 2] : List Nat).length :=
  C2_exchangeMove_preserves_length [1, 2] 2 3 0 0 (by decide) (by decide)
    (by decide) (by decide)

/-- Claim C7: `constructMuMatrix` returns a column vector of length
exactly `|Π| + 1` whose entries are all zero, for any Π including the
empty set, and depends only on the cardinality of Π. -/
theorem C7_constructMuMatrix_zero_column (fs : List Nat) :
    (constructMuMatrix fs).length = fs.length + 1 ∧
    (∀ row ∈ constructMuMatrix fs, row = [(0 : ℚ)]) ∧
    ∀ fs2 : List Nat, fs.length = fs2.length →
      constructMuMatrix fs = constructMuMatrix fs2 := by
  refine ⟨List.length_replicate _ _, ?_, ?_⟩
  · intro row h
    exact List.eq_of_mem_replicate h
  · intro fs2 h
    simp only [constructMuMatrix, h]

theorem getD_replicate_of_lt {n i : Nat} {q : ℚ} (h : i < n) :
    (List.replicate n q).getD i 0 = q := by
  rw [List.getD_eq_getElem _ _ (by simpa using h)]
  simp

theorem constructDesignMatrix_eq (data : Dataset) (N : Nat) :
    constructDesignMatrix data N =
      (List.range N).map (fun i =>
        ((List.replicate N (1 : ℚ)) :: data.features.map (fun p => p.2)).map
          (fun r => r.getD i 0)) := by
  simp only [constructDesignMatrix, ite_self, npTranspose, List.headD_cons,
    List.length_replicate]

/-- Claim C6: on a dataset whose feature vectors all have length
`numSamples`, `constructDesignMatrix` returns a matrix with exactly
`numSamples` rows and `1 + numberOfSelectedFeatures` columns whose first
column is all ones; with 0 selected features it returns shape
`(numSamples, 1)`, all ones, rather than failing. -/
theorem C6_constructDesignMatrix_shape (data : Dataset) (N : Nat)
    (hlen : ∀ p ∈ data.features, p.2.length = N) :
    (constructDesignMatrix data N).length = N ∧
    (∀ row ∈ constructDesignMatrix data N,
      row.length = 1 + data.features.length) ∧
    (∀ row ∈ constructDesignMatrix data N, row.head? = some 1) ∧
    (data.features = [] →
      constructDesignMatrix data N = List.replicate N [1]) := by
  refine ⟨?_, ?_, ?_, ?_⟩
  · rw [constructDesignMatrix_eq]
    simp
  · intro row h
    rw [constructDesignMatrix_eq] at h
    rcases List.mem_map.mp h with ⟨i, hi, rfl⟩
    simp only [List.map_cons, List.length_cons, List.length_map]
    omega
  · intro row h
    rw [constructDesignMatrix_eq] at h
    rcases List.mem_map.mp h with ⟨i, hi, rfl⟩
    rw [List.map_cons, List.head?_cons,
      getD_replicate_of_lt (List.mem_range.mp hi)]
  · intro h0
    rw [constructDesignMatrix_eq, h0]
    rw [List.eq_replicate_iff]
    refine ⟨by simp, ?_⟩
    intro b hb
    rcases List.mem_map.mp hb with ⟨i, hi, rfl⟩
    rw [List.map_nil, List.map_cons, List.map_nil,
      getD_replicate_of_lt (List.mem_range.mp hi)]

/-- Witness for C6 at the concrete dataset with one feature column
`X1 = [2, 3]` and `numSamples = 2`. -/
theorem C6_constructDesignMatrix_shape_witness :
    (constructDesignMatrix ⟨[("X1", [2, 3])], []⟩ 2).length = 2 ∧
    (∀ row ∈ constructDesignMatrix ⟨[("X1", [2, 3])], []⟩ 2,
      row.length = 2) ∧
    (∀ row ∈ constructDesignMatrix ⟨[("X1", [2, 3])], []⟩ 2,
      row.head? = some 1) ∧
    (([("X1", ([2, 3] : List ℚ))] : List (String × FVec)) = [] →
      constructDesignMatrix ⟨[("X1", [2, 3])], []⟩ 2 = List.replicate 2 [1]) :=
  C6_constructDesignMatrix_shape ⟨[("X1", [2, 3])], []⟩ 2 (by decide)

theorem selectFeaturesGo_spec (data : Dataset) (fs : List Nat) :
    ((∃ e, selectFeaturesGo data fs = .error e) ↔
      ∃ i ∈ fs, lookupKey data.features (xKey i) = none) ∧
    ∀ l, selectFeaturesGo data fs = .ok l →
      l.map Prod.fst = fs.map xKey ∧
      ∀ p ∈ l, lookupKey data.features p.1 = some p.2 := by
  induction fs with
  | nil =>
    refine ⟨⟨?_, ?_⟩, ?_⟩
    · rintro ⟨e, he⟩
      exact absurd he (by simp [selectFeaturesGo])
    · rintro ⟨i, hi, -⟩
      exact absurd hi (List.not_mem_nil i)
    · intro l hl
      have hnil : l = [] := by
        simp only [selectFeaturesGo] at hl
        injection hl with hl
        exact hl.symm
      subst hnil
      exact ⟨rfl, fun p hp => absurd hp (List.not_mem_nil p)⟩
  | cons i rest ih =>
    cases hk : lookupKey data.features (xKey i) with
    | none =>
      refine ⟨⟨fun _ => ⟨i, List.mem_cons_self i rest, hk⟩,
        fun _ => ⟨.keyNotFound (xKey i), ?_⟩⟩, ?_⟩
      · simp [selectFeaturesGo, hk]
      · intro l hl
        simp [selectFeaturesGo, hk] at hl
    | some v =>
      cases hrest : selectFeaturesGo data rest with
      | error e =>
        rcases ih.1.mp ⟨e, hrest⟩ with ⟨j, hj, hnj⟩
        refine ⟨⟨fun _ => ⟨j, List.mem_cons_of_mem _ hj, hnj⟩,
          fun _ => ⟨e, ?_⟩⟩, ?_⟩
        · simp [selectFeaturesGo, hk, hrest]
        · intro l hl
          simp [selectFeaturesGo, hk, hrest] at hl
      | ok tail =>
        have htail := ih.2 tail hrest
        refine ⟨⟨?_, ?_⟩, ?_⟩
        · rintro ⟨e, he⟩
          simp [selectFeaturesGo, hk, hrest] at he
        · rintro ⟨j, hj, hnj⟩
          rcases List.mem_cons.mp hj with rfl | hj
          · rw [hk] at hnj
            exact absurd hnj (by simp)
          · rcases ih.1.mpr ⟨j, hj, hnj⟩ with ⟨e, he⟩
            rw [hrest] at he
            exact absurd he (by simp)
        · intro l hl
          have hcons : l = (xKey i, v) :: tail := by
            simp only [selectFeaturesGo, hk, hrest] at hl
            injection hl with hl
            exact hl.symm
          subst hcons
          refine ⟨by simp [htail.1], ?_⟩
          intro p hp
          rcases List.mem_cons.mp hp with rfl | hp
          · exact hk
          · exact htail.2 p hp

/-- Claim C8: `selectData` raises a key-not-found error if and only if
some integer `i` of the feature set has no key `"X" + i` in the data's
feature map; otherwise it returns a structure whose features sub-map is
restricted to exactly those named keys, each mapped to its unchanged
value, with the response not carried through. -/
theorem C8_selectData_projection (data : Dataset) (fs : List Nat) :
    ((∃ e, selectData data fs = .error e) ↔
      ∃ i ∈ fs, lookupKey data.features (xKey i) = none) ∧
    ∀ r, selectData data fs = .ok r →
      r.response = [] ∧
      r.features.map Prod.fst = fs.map xKey ∧
      ∀ p ∈ r.features, lookupKey data.features p.1 = some p.2 := by
  constructor
  · rw [← (selectFeaturesGo_spec data fs).1]
    constructor
    · rintro ⟨e, he⟩
      simp only [selectData] at he
      cases hgo : selectFeaturesGo data fs with
      | error e2 => exact ⟨e2, rfl⟩
      | ok l =>
        rw [hgo] at he
        exact absurd he (by simp)
    · rintro ⟨e, he⟩
      exact ⟨e, by simp only [selectData]; rw [he]⟩
  · intro r hr
    simp only [selectData] at hr
    cases hgo : selectFeaturesGo data fs with
    | error e =>
      rw [hgo] at hr
      exact absurd hr (by simp)
    | ok l =>
      rw [hgo] at hr
      injection hr with hr
      have hspec := (selectFeaturesGo_spec data fs).2 l hgo
      rw [← hr]
      exact ⟨rfl, hspec.1, hspec.2⟩

theorem npChoiceNoReplace_length_lt (k : Nat) :
    ∀ (pool seed : List Nat), pool.length < k →
      npChoiceNoReplace k pool seed = .error .emptySample := by
  induction k with
  | zero =>
    intro pool seed h
    omega
  | succ k ih =>
    intro pool seed h
    by_cases hp : pool = []
    · simp [npChoiceNoReplace, hp]
    · have hx : pool.getD (seed.headD 0 % pool.length) 0 ∈ pool :=
        getD_mod_mem hp _
      have hlen : (pool.erase
          (pool.getD (seed.headD 0 % pool.length) 0)).length =
          pool.length - 1 := List.length_erase_of_mem hx
      have hpos : 0 < pool.length := List.length_pos.mpr hp
      simp only [npChoiceNoReplace, if_neg hp]
      rw [ih (pool.erase (pool.getD (seed.headD 0 % pool.length) 0))
        seed.tail (by omega)]

theorem npChoiceNoReplace_ok (k : Nat) :
    ∀ (pool seed : List Nat), pool.Nodup → k ≤ pool.length →
      ∃ l, npChoiceNoReplace k pool seed = .ok l ∧
        l.length = k ∧ l.Nodup ∧ ∀ x ∈ l, x ∈ pool := by
  induction k with
  | zero =>
    intro pool seed _ _
    exact ⟨[], rfl, rfl, List.nodup_nil, by simp⟩
  | succ k ih =>
    intro pool seed hnd hk
    have hp : pool ≠ [] := by
      intro h
      rw [h] at hk
      simp at hk
    have hx : pool.getD (seed.headD 0 % pool.length) 0 ∈ pool :=
      getD_mod_mem hp _
    have herase_len : (pool.erase
        (pool.getD (seed.headD 0 % pool.length) 0)).length =
        pool.length - 1 := List.length_erase_of_mem hx
    rcases ih (pool.erase (pool.getD (seed.headD 0 % pool.length) 0))
        seed.tail (hnd.erase _) (by omega) with ⟨l, hl, hlen, hlnd, hsub⟩
    refine ⟨pool.getD (seed.headD 0 % pool.length) 0 :: l, ?_,
      by simp [hlen], ?_, ?_⟩
    · simp only [npChoiceNoReplace, if_neg hp]
      rw [hl]
    · exact List.nodup_cons.mpr
        ⟨fun hmem => hnd.not_mem_erase (hsub _ hmem), hlnd⟩
    · intro y hy
      rcases List.mem_cons.mp hy with rfl | hy
      · exact hx
      · exact List.erase_subset _ _ (hsub y hy)

/-- Claim C9: with `fanInRestriction ≤ numFeatures`,
`generateInitialFeatureSet` returns exactly `fanInRestriction`
pairwise-distinct integers, each in `[1, numFeatures]` (drawn from
`[0, numFeatures)` then shifted by +1); with
`fanInRestriction > numFeatures` it fails with the sampling error instead
of returning. -/
theorem C9_generateInitialFeatureSet_spec (n f : Nat) (seed : List Nat) :
    (f ≤ n → ∃ l, generateInitialFeatureSet n f seed = .ok l ∧
      l.length = f ∧ l.Nodup ∧ ∀ x ∈ l, 1 ≤ x ∧ x ≤ n) ∧
    (n < f → generateInitialFeatureSet n f seed = .error .emptySample) := by
  constructor
  · intro hf
    rcases npChoiceNoReplace_ok f (List.range n) seed (List.nodup_range n)
        (by simp [hf]) with ⟨l, hl, hlen, hnd, hsub⟩
    refine ⟨l.map (· + 1), ?_, by simp [hlen],
      List.Nodup.map (fun a b h => by omega) hnd, ?_⟩
    · simp only [generateInitialFeatureSet]
      rw [hl]
    · intro x hx
      rcases List.mem_map.mp hx with ⟨y, hy, rfl⟩
      have hy2 := List.mem_range.mp (hsub y hy)
      omega
  · intro hn
    simp only [generateInitialFeatureSet]
    rw [npChoiceNoReplace_length_lt f (List.range n) seed (by simp [hn])]

end NhDBN
